import Mathlib

/-!
# ocs2 switched-model interface: centre-of-mass model and dynamics construction

A shallow embedding of

* `ComModelBase.cpp` (`switched_model::ComModelBase<SCALAR_T>`): the derived reads
  `rotationalInertia`, `comInertiaInverse` and the six frame conversions between the
  base frame and the centre-of-mass frame;
* `ComDynamicsBase.h`: the constructor of `ComDynamicsBase` and its gravity check;
* `OdeFunc.h` (`ocs2::OdeFunc<STATE_DIM>`): the flow-map adapter around a `std::function`;
* `AnymalCrocLoopshapingInterface.cpp`: the two task-file path functions.

The scalar type `SCALAR_T` of the templates is a type parameter `K`; arithmetic is the
exact arithmetic of `K`.  The definitions ask of `K` only the operations the code uses
(for `comInertiaInverse` a commutative ring with a division), so that they instantiate
at a field as well as at a differentiable scalar.  Over a field, division is the total
division of the field, so every statement that depends on the value of a quotient carries
the hypothesis that the denominator is not zero.
Fixed-size Eigen vectors and matrices are functions on `Fin n`.
-/

namespace switched_model

/-! ## Fixed-size Eigen types -/

/-- The type `vector3_s_t<SCALAR_T>`: a column of three scalars. -/
abbrev vector3_s_t (K : Type) := Fin 3 → K

/-- The type `matrix3_s_t<SCALAR_T>`: a 3x3 matrix. -/
abbrev matrix3_s_t (K : Type) := Matrix (Fin 3) (Fin 3) K

/-- The type `matrix6_s_t<SCALAR_T>`: a 6x6 matrix. -/
abbrev matrix6_s_t (K : Type) := Matrix (Fin 6) (Fin 6) K

/-- The type `base_coordinate_s_t<SCALAR_T>`: a column of six scalars. -/
abbrev base_coordinate_s_t (K : Type) := Fin 6 → K

section Eigen

variable {K : Type}

/-- Eigen `v.head<3>()`: the coefficients 0, 1, 2 of a 6-vector. -/
def head3 (v : base_coordinate_s_t K) : vector3_s_t K := fun i => v (Fin.castAdd 3 i)

/-- Eigen `v.tail<3>()`: the coefficients 3, 4, 5 of a 6-vector. -/
def tail3 (v : base_coordinate_s_t K) : vector3_s_t K := fun i => v (Fin.natAdd 3 i)

/-- The 6-vector `v` after `v.head<3>() = h; v.tail<3>() = t;`: both halves are assigned,
so no coefficient of the fresh vector is left unwritten. -/
def fromHeadTail (h t : vector3_s_t K) : base_coordinate_s_t K := Fin.append h t

/-- Eigen `a.cross(b)` for 3-vectors. -/
def cross [Mul K] [Sub K] (a b : vector3_s_t K) : vector3_s_t K :=
  ![a 1 * b 2 - a 2 * b 1, a 2 * b 0 - a 0 * b 2, a 0 * b 1 - a 1 * b 0]

/-- Eigen `M.topLeftCorner<3, 3>()` of a 6x6 matrix. -/
def topLeftCorner33 (M : matrix6_s_t K) : matrix3_s_t K :=
  fun i j => M (Fin.castAdd 3 i) (Fin.castAdd 3 j)

/-- Eigen `M.topRightCorner<3, 3>()` of a 6x6 matrix. -/
def topRightCorner33 (M : matrix6_s_t K) : matrix3_s_t K :=
  fun i j => M (Fin.castAdd 3 i) (Fin.natAdd 3 j)

/-- Eigen `M.bottomLeftCorner<3, 3>()` of a 6x6 matrix. -/
def bottomLeftCorner33 (M : matrix6_s_t K) : matrix3_s_t K :=
  fun i j => M (Fin.natAdd 3 i) (Fin.castAdd 3 j)

/-- Eigen `M.bottomRightCorner<3, 3>()` of a 6x6 matrix. -/
def bottomRightCorner33 (M : matrix6_s_t K) : matrix3_s_t K :=
  fun i j => M (Fin.natAdd 3 i) (Fin.natAdd 3 j)

/-- The comma initialiser `M << A, B, C, D;` of a 6x6 matrix from four 3x3 blocks:
`A` and `B` fill the first three rows, `C` and `D` the last three. -/
def commaInit33 (A B C D : matrix3_s_t K) : matrix6_s_t K :=
  fun i j => Fin.append (fun a => Fin.append (A a) (B a) j) (fun a => Fin.append (C a) (D a) j) i

/-- Eigen `cofactor_3x3<i, j>`: the cofactor of entry `(i, j)`, with the row and column
indices taken cyclically (`Fin 3` adds modulo 3). -/
def cofactor3 [Mul K] [Sub K] (M : matrix3_s_t K) (i j : Fin 3) : K :=
  M (i + 1) (j + 1) * M (i + 2) (j + 2) - M (i + 1) (j + 2) * M (i + 2) (j + 1)

/-- The determinant as Eigen's 3x3 inverse computes it: the cofactors of the first
column times the first column, summed. -/
def det3 [Mul K] [Sub K] [Add K] (M : matrix3_s_t K) : K :=
  cofactor3 M 0 0 * M 0 0 + cofactor3 M 1 0 * M 1 0 + cofactor3 M 2 0 * M 2 0

/-- Eigen `M.inverse()` for a fixed-size 3x3 matrix: the transposed cofactor matrix
scaled by `1 / det`. -/
def inverse3 [Mul K] [Sub K] [Add K] [One K] [Div K] (M : matrix3_s_t K) : matrix3_s_t K :=
  fun i j => cofactor3 M j i * (1 / det3 M)

/-- Eigen `matrix3_s_t::Identity() / s`: every coefficient of the identity divided by `s`. -/
def identityDiv3 [Zero K] [One K] [Div K] (s : K) : matrix3_s_t K :=
  fun i j => (1 : matrix3_s_t K) i j / s

end Eigen

/-! ## Accessors of `SwitchedModel.h` -/

section Accessors

variable {K : Type}

/-- Modelled from the spec: `getOrientation` of `SwitchedModel.h`, which is not among the
sources.  A pose is "orientation (3), position (3)": the orientation is the head. -/
def getOrientation (pose : base_coordinate_s_t K) : vector3_s_t K := head3 pose

/-- Modelled from the spec: `getPositionInOrigin` of `SwitchedModel.h`, which is not among
the sources.  A pose is "orientation (3), position (3)": the position is the tail. -/
def getPositionInOrigin (pose : base_coordinate_s_t K) : vector3_s_t K := tail3 pose

/-- Modelled from the spec: `getAngularVelocity` of `SwitchedModel.h`, which is not among
the sources.  A twist is "angular and linear velocity": the angular part is the head. -/
def getAngularVelocity (twist : base_coordinate_s_t K) : vector3_s_t K := head3 twist

/-- Modelled from the spec: `getLinearVelocity` of `SwitchedModel.h`, which is not among
the sources.  A twist is "angular and linear velocity": the linear part is the tail. -/
def getLinearVelocity (twist : base_coordinate_s_t K) : vector3_s_t K := tail3 twist

/-- Modelled from the spec: `getAngularAcceleration` of `SwitchedModel.h`, which is not
among the sources.  An acceleration is "angular + linear": the angular part is the head. -/
def getAngularAcceleration (acc : base_coordinate_s_t K) : vector3_s_t K := head3 acc

/-- Modelled from the spec: `getLinearAcceleration` of `SwitchedModel.h`, which is not
among the sources.  An acceleration is "angular + linear": the linear part is the tail. -/
def getLinearAcceleration (acc : base_coordinate_s_t K) : vector3_s_t K := tail3 acc

end Accessors

/-! ## `ComModelBase` -/

/-- The state a `ComModelBase<SCALAR_T>` exposes through its three pure virtual reads
`comPositionBaseFrame()`, `totalMass()` and `comInertia()` (cached fields in
`AnymalCrocCom`). -/
structure ComModelBase (K : Type) where
  /-- The cached base-to-CoM offset, `comPositionBaseFrame()`. -/
  comPositionBaseFrame : vector3_s_t K
  /-- The cached total mass, `totalMass()`. -/
  totalMass : K
  /-- The cached 6x6 inertia, `comInertia()`. -/
  comInertia : matrix6_s_t K

namespace ComModelBase

variable {K : Type}

/-- Source `ComModelBase::rotationalInertia`. -/
def rotationalInertia (m : ComModelBase K) : matrix3_s_t K :=
  let inertia := m.comInertia
  topLeftCorner33 inertia

/-- Source `ComModelBase::comInertiaInverse`. -/
def comInertiaInverse [CommRing K] [Div K] (m : ComModelBase K) : matrix6_s_t K :=
  commaInit33 (inverse3 m.rotationalInertia) 0 0 (identityDiv3 m.totalMass)

/-- Source `ComModelBase::calculateBasePose`.  The function `rotationMatrixBaseToOrigin` of
`Rotations.h` is the parameter `R`. -/
def calculateBasePose [CommRing K] (R : vector3_s_t K → matrix3_s_t K) (m : ComModelBase K)
    (comPose : base_coordinate_s_t K) : base_coordinate_s_t K :=
  let o_R_b := R (getOrientation comPose)
  let com_base2CoM := m.comPositionBaseFrame
  fromHeadTail (getOrientation comPose)
    (getPositionInOrigin comPose - o_R_b.mulVec com_base2CoM)

/-- Source `ComModelBase::calculateComPose`.  The function `rotationMatrixBaseToOrigin` of
`Rotations.h` is the parameter `R`. -/
def calculateComPose [CommRing K] (R : vector3_s_t K → matrix3_s_t K) (m : ComModelBase K)
    (basePose : base_coordinate_s_t K) : base_coordinate_s_t K :=
  let o_R_b := R (getOrientation basePose)
  let com_base2CoM := m.comPositionBaseFrame
  fromHeadTail (getOrientation basePose)
    (getPositionInOrigin basePose + o_R_b.mulVec com_base2CoM)

/-- Source `ComModelBase::calculateBaseLocalVelocities`. -/
def calculateBaseLocalVelocities [CommRing K] (m : ComModelBase K)
    (comLocalVelocities : base_coordinate_s_t K) : base_coordinate_s_t K :=
  let com_base2CoM := m.comPositionBaseFrame
  let com_com2base := -com_base2CoM
  let angularVelocity := getAngularVelocity comLocalVelocities
  fromHeadTail angularVelocity
    (getLinearVelocity comLocalVelocities + cross angularVelocity com_com2base)

/-- Source `ComModelBase::calculateComLocalVelocities`. -/
def calculateComLocalVelocities [CommRing K] (m : ComModelBase K)
    (baseLocalVelocities : base_coordinate_s_t K) : base_coordinate_s_t K :=
  let com_base2CoM := m.comPositionBaseFrame
  let angularVelocity := getAngularVelocity baseLocalVelocities
  fromHeadTail angularVelocity
    (getLinearVelocity baseLocalVelocities + cross angularVelocity com_base2CoM)

/-- Source `ComModelBase::calculateBaseLocalAccelerations`. -/
def calculateBaseLocalAccelerations [CommRing K] (m : ComModelBase K)
    (comLocalAccelerations comLocalVelocities : base_coordinate_s_t K) :
    base_coordinate_s_t K :=
  let com_base2CoM := m.comPositionBaseFrame
  let com_com2base := -com_base2CoM
  let angularVelocity := getAngularVelocity comLocalVelocities
  let angularAcceleration := getAngularAcceleration comLocalAccelerations
  fromHeadTail angularAcceleration
    (getLinearAcceleration comLocalAccelerations + cross angularAcceleration com_com2base +
      cross angularVelocity (cross angularVelocity com_com2base))

/-- Source `ComModelBase::calculateComLocalAccelerations`. -/
def calculateComLocalAccelerations [CommRing K] (m : ComModelBase K)
    (baseLocalAccelerations baseLocalVelocities : base_coordinate_s_t K) :
    base_coordinate_s_t K :=
  let com_base2CoM := m.comPositionBaseFrame
  let angularVelocity := getAngularVelocity baseLocalVelocities
  let angularAcceleration := getAngularAcceleration baseLocalAccelerations
  fromHeadTail angularAcceleration
    (getLinearAcceleration baseLocalAccelerations + cross angularAcceleration com_base2CoM +
      cross angularVelocity (cross angularVelocity com_base2CoM))

/-- The model over the scalar `K₂` whose three cached reads are the images under `phi` of
those of a model over the scalar `K₁`. -/
def map {K₁ K₂ : Type} (phi : K₁ → K₂) (m : ComModelBase K₁) : ComModelBase K₂ where
  comPositionBaseFrame := phi ∘ m.comPositionBaseFrame
  totalMass := phi m.totalMass
  comInertia := m.comInertia.map phi

end ComModelBase

end switched_model

/-! ## `ComDynamicsBase` (global namespace in `ComDynamicsBase.h`) -/

/-- The two standard exception classes that matter for the constructor:
`std::runtime_error` and `std::invalid_argument` (a `std::logic_error`).  Neither class
derives from the other, so a handler for one does not catch the other. -/
inductive StdExceptionKind where
  | runtime_error
  | invalid_argument
  deriving DecidableEq, Repr

/-- A thrown standard exception: its class and its `what()` message. -/
structure StdException where
  /-- The class of the exception object. -/
  kind : StdExceptionKind
  /-- The message passed to the exception constructor. -/
  what : String
  deriving DecidableEq, Repr

/-- The members of `ComDynamicsBase` that its constructor initialises.  `KM` and `CM` are the
types `kinematic_model_t` and `com_model_t`; the remaining members (stance legs, joint
coordinates, cached `M_`, `MInverse_`, ...) are left unset by the constructor. -/
structure ComDynamicsBase (K KM CM : Type) where
  /-- Member `kinematicModel_`: it has no initialiser, so it is default-constructed. -/
  kinematicModel_ : KM
  /-- Member `comModel_`. -/
  comModel_ : CM
  /-- Member `o_gravityVector_`. -/
  o_gravityVector_ : Fin 3 → K
  /-- Member `constrainedIntegration_`. -/
  constrainedIntegration_ : Bool

namespace ComDynamicsBase

variable {K KM CM : Type}

/-- Source constructor `ComDynamicsBase::ComDynamicsBase`: the member initialisers, then
the gravity check of the body.  A `throw` is `Except.error`.  (In the source the last two
parameters default to `9.81` and `true`.) -/
def construct [LinearOrderedField K] [Inhabited KM] (_kinematicModel : KM) (comModel : CM)
    (gravitationalAcceleration : K) (constrainedIntegration : Bool) :
    Except StdException (ComDynamicsBase K KM CM) :=
  let self : ComDynamicsBase K KM CM :=
    ⟨default, comModel, ![0, 0, -gravitationalAcceleration], constrainedIntegration⟩
  if gravitationalAcceleration < 0 then
    Except.error ⟨StdExceptionKind.runtime_error,
      "Gravitational acceleration should be a positive value."⟩
  else
    Except.ok self

end ComDynamicsBase

/-! ## `OdeFunc` (`ocs2_core/integration/OdeFunc.h`) -/

namespace ocs2

/-- The type `std::function<void(const scalar_t& t, const state_vector_t& x,
state_vector_t& dxdt)>`: either empty (`none`) or a target.  A target reads `t`, `x` and
the incoming content of the buffer `dxdt` and leaves the buffer with new content, so it
is a function `T → X → X → X`. -/
abbrev StdFunction (T X : Type) := Option (T → X → X → X)

/-- The call `f(t, x, dxdt)` of a `std::function`: the content of `dxdt` after the call,
or `none` when the function object is empty and the call throws
`std::bad_function_call`. -/
def StdFunction.invoke {T X : Type} (f : StdFunction T X) (t : T) (x dxdt : X) : Option X :=
  match f with
  | none => none
  | some target => some (target t x dxdt)

/-- An `OdeFunc<STATE_DIM>` object: the subobject of its base class `OdeBase<STATE_DIM>`
(whose header is not among the sources, so its state is the type parameter `B`) and the
member `flowMap_`. -/
structure OdeFunc (B T X : Type) where
  /-- The `OdeBase<STATE_DIM>` subobject. -/
  base : B
  /-- Member `flowMap_`. -/
  flowMap_ : StdFunction T X

namespace OdeFunc

variable {B T X : Type}

/-- Source constructor `OdeFunc::OdeFunc(flowMap)`: `flowMap_` takes the argument; `base`
is the state the base-class constructor leaves. -/
def construct (base : B) (flowMap : StdFunction T X) : OdeFunc B T X :=
  ⟨base, flowMap⟩

/-- Source `OdeFunc::computeFlowMap`: the call `flowMap_(t, x, dxdt)`; the result is the
content of `dxdt` afterwards.  No member is written. -/
def computeFlowMap (self : OdeFunc B T X) (t : T) (x dxdt : X) : Option X :=
  self.flowMap_.invoke t x dxdt

/-- Source `OdeFunc::setFlowMap`: the assignment `flowMap_ = flowMap`. -/
def setFlowMap (self : OdeFunc B T X) (flowMap : StdFunction T X) : OdeFunc B T X :=
  { self with flowMap_ := flowMap }

end OdeFunc

end ocs2

/-! ## Task file paths (`AnymalCrocLoopshapingInterface.cpp`) -/

namespace anymal

/-- Source `getTaskFileFolderCrocLoopshaping`.  The parameter `getPath` is
`ros::package::getPath`.  The body builds the local string `taskFolder` and ends without
a `return` statement, so the call hands no value back: the result is `none`. -/
def getTaskFileFolderCrocLoopshaping (getPath : String → String) (taskName : String) :
    Option String :=
  let _taskFolder := getPath "ocs2_anymal_croc_loopshaping" ++ "/config/" ++ taskName
  none

/-- Source `getTaskFilePathCrocLoopshaping`: the value returned by
`getTaskFileFolderCrocLoopshaping(taskName)` followed by `"/task.info"`. -/
def getTaskFilePathCrocLoopshaping (getPath : String → String) (taskName : String) :
    Option String :=
  (getTaskFileFolderCrocLoopshaping getPath taskName).map fun folder => folder ++ "/task.info"

/-- A sample `ros::package::getPath`: packages installed under `/opt/ros/share`. -/
def samplePackagePath (package : String) : String := "/opt/ros/share/" ++ package

end anymal

/-! ## Concrete models used to instantiate the theorems -/

namespace switched_model

/-- A rational model with an uncoupled inertia: rotational block of determinant 3,
translational block `4 * I`, total mass 4. -/
def sampleModel : ComModelBase ℚ where
  comPositionBaseFrame := ![1, 2, 3]
  totalMass := 4
  comInertia := commaInit33 !![2, 1, 0; 1, 2, 0; 0, 0, 1] 0 0 !![4, 0, 0; 0, 4, 0; 0, 0, 4]

/-- A rational model with the same top-left inertia block as `sampleModel` and different
entries everywhere else. -/
def coupledModel : ComModelBase ℚ where
  comPositionBaseFrame := ![0, 0, 7]
  totalMass := 5
  comInertia := commaInit33 !![2, 1, 0; 1, 2, 0; 0, 0, 1] 1 1 !![9, 8, 7; 6, 5, 4; 3, 2, 1]

/-- A rational model with the total mass and the top-left inertia block of `sampleModel`,
coupled off-diagonal blocks and a translational block that is not `4 * I`. -/
def skewedModel : ComModelBase ℚ where
  comPositionBaseFrame := ![5, 0, 2]
  totalMass := 4
  comInertia := commaInit33 !![2, 1, 0; 1, 2, 0; 0, 0, 1] 1 1 !![9, 8, 7; 6, 5, 4; 3, 2, 1]

/-- A sample differentiable scalar: the dual numbers `a + b ε` over the rationals, a value
`a` together with one derivative `b`. -/
abbrev ad_scalar_t : Type := DualNumber ℚ

/-- Division of the sample differentiable scalar: the quotient rule, as multiplication by
the inverse `(1 / b.fst, -b.snd / b.fst ^ 2)`. -/
instance instDivAdScalar : Div ad_scalar_t := ⟨fun a b => a * b⁻¹⟩

/-- The value projection of the sample differentiable scalar: the value `a` of `a + b ε`. -/
def adValue (a : ad_scalar_t) : ℚ := TrivSqZeroExt.fst a

/-- A sample orientation-to-rotation-matrix function that uses ring operations only (the
first-order rotation by the angles `theta`), available at every scalar type. -/
def sampleRotation {K : Type} [CommRing K] (theta : vector3_s_t K) : matrix3_s_t K :=
  !![1, -theta 2, theta 1; theta 2, 1, -theta 0; -theta 1, theta 0, 1]

/-- A model over the sample differentiable scalar: every cached read carries a non-zero
derivative part. -/
def adModel : ComModelBase ad_scalar_t where
  comPositionBaseFrame := ![1 + DualNumber.eps, 2, 3 - DualNumber.eps]
  totalMass := 4 + DualNumber.eps
  comInertia := fun i j => if i = j then 2 + DualNumber.eps else DualNumber.eps

/-- A pose over the sample differentiable scalar. -/
def adPose : base_coordinate_s_t ad_scalar_t :=
  ![DualNumber.eps, 1, 2 + DualNumber.eps, 3, 4, 5 - DualNumber.eps]

end switched_model

/-! ## Lemmas on the Eigen operations -/

namespace switched_model

section EigenLemmas

variable {K : Type}

theorem head3_fromHeadTail (h t : vector3_s_t K) : head3 (fromHeadTail h t) = h := by
  funext i
  exact Fin.append_left h t i

theorem tail3_fromHeadTail (h t : vector3_s_t K) : tail3 (fromHeadTail h t) = t := by
  funext i
  exact Fin.append_right h t i

theorem fromHeadTail_head3_tail3 (v : base_coordinate_s_t K) :
    fromHeadTail (head3 v) (tail3 v) = v := by
  funext i
  fin_cases i <;> rfl

theorem cross_eq_crossProduct [CommRing K] (a b : vector3_s_t K) :
    cross a b = crossProduct a b := by
  rw [cross_apply]
  rfl

theorem cross_neg_right [CommRing K] (a b : vector3_s_t K) : cross a (-b) = -cross a b := by
  funext i
  fin_cases i <;> simp [cross] <;> ring

theorem commaInit33_topLeft (A B C D : matrix3_s_t K) :
    topLeftCorner33 (commaInit33 A B C D) = A := by
  funext i j
  simp [topLeftCorner33, commaInit33, Fin.append_left]

theorem commaInit33_topRight (A B C D : matrix3_s_t K) :
    topRightCorner33 (commaInit33 A B C D) = B := by
  funext i j
  simp only [topRightCorner33, commaInit33, Fin.append_left, Fin.append_right]

theorem commaInit33_bottomLeft (A B C D : matrix3_s_t K) :
    bottomLeftCorner33 (commaInit33 A B C D) = C := by
  funext i j
  simp only [bottomLeftCorner33, commaInit33, Fin.append_left, Fin.append_right]

theorem commaInit33_bottomRight (A B C D : matrix3_s_t K) :
    bottomRightCorner33 (commaInit33 A B C D) = D := by
  funext i j
  simp only [bottomRightCorner33, commaInit33, Fin.append_right]

theorem commaInit33_corners (M : matrix6_s_t K) :
    commaInit33 (topLeftCorner33 M) (topRightCorner33 M) (bottomLeftCorner33 M)
      (bottomRightCorner33 M) = M := by
  funext i j
  fin_cases i <;> fin_cases j <;> rfl

theorem commaInit33_one [Zero K] [One K] : commaInit33 (1 : matrix3_s_t K) 0 0 1 = 1 := by
  funext i j
  fin_cases i <;> fin_cases j <;> rfl

theorem commaInit33_diag_mul [CommRing K] (A D A' D' : matrix3_s_t K) :
    commaInit33 A 0 0 D * commaInit33 A' 0 0 D' = commaInit33 (A * A') 0 0 (D * D') := by
  have e : ∀ (X Y : matrix3_s_t K), commaInit33 X 0 0 Y =
      Matrix.reindex finSumFinEquiv finSumFinEquiv (Matrix.fromBlocks X 0 0 Y) := by
    intro X Y
    funext i j
    fin_cases i <;> fin_cases j <;> rfl
  rw [e, e, e]
  simp [Matrix.reindex_apply, Matrix.submatrix_mul_equiv, Matrix.fromBlocks_multiply]

theorem det3_eq_det [CommRing K] (M : matrix3_s_t K) : det3 M = M.det := by
  rw [Matrix.det_fin_three]
  simp [det3, cofactor3]
  ring

theorem inverse3_eq_inv [Field K] (M : matrix3_s_t K) : inverse3 M = M⁻¹ := by
  funext i j
  rw [Matrix.inv_def, Matrix.adjugate_fin_three, Ring.inverse_eq_inv', ← det3_eq_det]
  fin_cases i <;> fin_cases j <;> simp [inverse3, cofactor3] <;> ring

theorem identityDiv3_eq_smul [Field K] (s : K) : identityDiv3 s = (1 / s) • (1 : matrix3_s_t K) := by
  funext i j
  simp [identityDiv3, Matrix.one_apply, div_eq_mul_inv]

end EigenLemmas

end switched_model

/-! ## Theorems -/

namespace switched_model

namespace ComModelBase

variable {K : Type}

/-- C1: with one model and one orientation-to-rotation-matrix function `R`, converting a
pose to the base frame and back to the centre-of-mass frame returns the pose, and so
does the mirror round trip. -/
theorem pose_round_trip [CommRing K] (R : vector3_s_t K → matrix3_s_t K) (m : ComModelBase K)
    (x : base_coordinate_s_t K) :
    calculateComPose R m (calculateBasePose R m x) = x ∧
      calculateBasePose R m (calculateComPose R m x) = x := by
  constructor
  · simp only [calculateComPose, calculateBasePose, getOrientation, getPositionInOrigin,
      head3_fromHeadTail, tail3_fromHeadTail, sub_add_cancel, fromHeadTail_head3_tail3]
  · simp only [calculateComPose, calculateBasePose, getOrientation, getPositionInOrigin,
      head3_fromHeadTail, tail3_fromHeadTail, add_sub_cancel_right, fromHeadTail_head3_tail3]

/-- C2: for every model and every twist, converting the twist to the base frame and back
to the centre-of-mass frame returns the twist, and so does the mirror round trip. -/
theorem velocity_round_trip [CommRing K] (m : ComModelBase K) (v : base_coordinate_s_t K) :
    calculateComLocalVelocities m (calculateBaseLocalVelocities m v) = v ∧
      calculateBaseLocalVelocities m (calculateComLocalVelocities m v) = v := by
  constructor
  · simp only [calculateComLocalVelocities, calculateBaseLocalVelocities, getAngularVelocity,
      getLinearVelocity, head3_fromHeadTail, tail3_fromHeadTail, cross_neg_right,
      neg_add_cancel_right, fromHeadTail_head3_tail3]
  · simp only [calculateComLocalVelocities, calculateBaseLocalVelocities, getAngularVelocity,
      getLinearVelocity, head3_fromHeadTail, tail3_fromHeadTail, cross_neg_right,
      add_neg_cancel_right, fromHeadTail_head3_tail3]

/-- C3: for every model, converting a centre-of-mass acceleration to the base frame and
back, each time with the twist of the frame converted from, returns the acceleration;
and so does the mirror round trip from a base acceleration. -/
theorem acceleration_round_trip [CommRing K] (m : ComModelBase K)
    (a v b w : base_coordinate_s_t K) :
    calculateComLocalAccelerations m (calculateBaseLocalAccelerations m a v)
        (calculateBaseLocalVelocities m v) = a ∧
      calculateBaseLocalAccelerations m (calculateComLocalAccelerations m b w)
        (calculateComLocalVelocities m w) = b := by
  have back : ∀ t p q : vector3_s_t K, t + -p + -q + p + q = t := by
    intro t p q
    abel
  have forth : ∀ t p q : vector3_s_t K, t + p + q + -p + -q = t := by
    intro t p q
    abel
  constructor
  · simp only [calculateComLocalAccelerations, calculateBaseLocalAccelerations,
      calculateBaseLocalVelocities, getAngularVelocity, getAngularAcceleration,
      getLinearAcceleration, head3_fromHeadTail, tail3_fromHeadTail, cross_neg_right,
      back, fromHeadTail_head3_tail3]
  · simp only [calculateComLocalAccelerations, calculateBaseLocalAccelerations,
      calculateComLocalVelocities, getAngularVelocity, getAngularAcceleration,
      getLinearAcceleration, head3_fromHeadTail, tail3_fromHeadTail, cross_neg_right,
      forth, fromHeadTail_head3_tail3]

/-- C9: on the pose with orientation `theta` and position `x`, `calculateBasePose` returns
orientation `theta` and position `x - R theta * r`, and `calculateComPose` returns
orientation `theta` and position `x + R theta * r`, where `r` is `comPositionBaseFrame()`
and `R` the base-to-origin rotation matrix function. -/
theorem pose_conversion_formula [CommRing K] (R : vector3_s_t K → matrix3_s_t K)
    (m : ComModelBase K) (theta x : vector3_s_t K) :
    calculateBasePose R m (fromHeadTail theta x) =
        fromHeadTail theta (x - (R theta).mulVec m.comPositionBaseFrame) ∧
      calculateComPose R m (fromHeadTail theta x) =
        fromHeadTail theta (x + (R theta).mulVec m.comPositionBaseFrame) ∧
      getOrientation (calculateBasePose R m (fromHeadTail theta x)) = theta ∧
      getOrientation (calculateComPose R m (fromHeadTail theta x)) = theta := by
  simp only [calculateBasePose, calculateComPose, getOrientation, getPositionInOrigin,
    head3_fromHeadTail, tail3_fromHeadTail, and_self]

/-- C10: on the twist with angular part `w` and linear part `v`,
`calculateBaseLocalVelocities` returns `(w, v + w x (-r))` and `calculateComLocalVelocities`
returns `(w, v + w x r)`, where `r` is `comPositionBaseFrame()` and `x` is the cross
product of 3-vectors; the angular part is `w` in both. -/
theorem velocity_conversion_formula [CommRing K] (m : ComModelBase K) (w v : vector3_s_t K) :
    calculateBaseLocalVelocities m (fromHeadTail w v) =
        fromHeadTail w (v + crossProduct w (-m.comPositionBaseFrame)) ∧
      calculateComLocalVelocities m (fromHeadTail w v) =
        fromHeadTail w (v + crossProduct w m.comPositionBaseFrame) ∧
      getAngularVelocity (calculateBaseLocalVelocities m (fromHeadTail w v)) = w ∧
      getAngularVelocity (calculateComLocalVelocities m (fromHeadTail w v)) = w := by
  simp only [calculateBaseLocalVelocities, calculateComLocalVelocities, getAngularVelocity,
    getLinearVelocity, head3_fromHeadTail, tail3_fromHeadTail, cross_eq_crossProduct,
    and_self]

/-- C7: `rotationalInertia()` is entry by entry the top-left 3x3 block of `comInertia()`,
and two models whose inertia matrices agree on that block have the same
`rotationalInertia()`, whatever their other entries are. -/
theorem rotationalInertia_topLeft (m m' : ComModelBase K)
    (h : ∀ i j : Fin 6, i.val < 3 → j.val < 3 → m.comInertia i j = m'.comInertia i j) :
    (∀ i j : Fin 3, m.rotationalInertia i j =
        m.comInertia ⟨i.val, by omega⟩ ⟨j.val, by omega⟩) ∧
      m.rotationalInertia = m'.rotationalInertia := by
  constructor
  · intro i j
    rfl
  · funext i j
    exact h (Fin.castAdd 3 i) (Fin.castAdd 3 j) i.isLt j.isLt

/-- Witness of C7: `sampleModel` and `coupledModel` agree on the top-left block only, and
have the same `rotationalInertia()`. -/
theorem rotationalInertia_topLeft_witness :
    (∀ i j : Fin 6, i.val < 3 → j.val < 3 →
        sampleModel.comInertia i j = coupledModel.comInertia i j) ∧
      sampleModel.comInertia ≠ coupledModel.comInertia ∧
      sampleModel.rotationalInertia = coupledModel.rotationalInertia := by
  have hs : topLeftCorner33 sampleModel.comInertia = topLeftCorner33 coupledModel.comInertia := by
    simp only [sampleModel, coupledModel, commaInit33_topLeft]
  have h : ∀ i j : Fin 6, i.val < 3 → j.val < 3 →
      sampleModel.comInertia i j = coupledModel.comInertia i j :=
    fun i j hi hj => congrFun (congrFun hs ⟨i.val, hi⟩) ⟨j.val, hj⟩
  refine ⟨h, ?_, (rotationalInertia_topLeft sampleModel coupledModel h).2⟩
  intro e
  have e' := congrFun (congrFun (congrArg topRightCorner33 e) 0) 0
  simp [sampleModel, coupledModel, commaInit33_topRight] at e'

/-- C8: for a model with non-zero total mass, `comInertiaInverse()` has as top-left block
the Eigen inverse of `rotationalInertia()` (a two-sided matrix inverse whenever
`rotationalInertia()` is invertible), zero off-diagonal blocks, and as bottom-right block
the identity divided by `totalMass()`. -/
theorem comInertiaInverse_blocks [Field K] (m : ComModelBase K) (hm : m.totalMass ≠ 0) :
    topLeftCorner33 m.comInertiaInverse = inverse3 m.rotationalInertia ∧
      (IsUnit m.rotationalInertia →
        topLeftCorner33 m.comInertiaInverse * m.rotationalInertia = 1 ∧
          m.rotationalInertia * topLeftCorner33 m.comInertiaInverse = 1) ∧
      topRightCorner33 m.comInertiaInverse = 0 ∧
      bottomLeftCorner33 m.comInertiaInverse = 0 ∧
      bottomRightCorner33 m.comInertiaInverse = (1 / m.totalMass) • (1 : matrix3_s_t K) ∧
      m.totalMass • bottomRightCorner33 m.comInertiaInverse = 1 := by
  refine ⟨commaInit33_topLeft _ _ _ _, ?_, commaInit33_topRight _ _ _ _,
    commaInit33_bottomLeft _ _ _ _, ?_, ?_⟩
  · intro hJ
    have hdet : IsUnit m.rotationalInertia.det := (Matrix.isUnit_iff_isUnit_det _).1 hJ
    rw [comInertiaInverse, commaInit33_topLeft, inverse3_eq_inv]
    exact ⟨Matrix.nonsing_inv_mul _ hdet, Matrix.mul_nonsing_inv _ hdet⟩
  · rw [comInertiaInverse, commaInit33_bottomRight, identityDiv3_eq_smul]
  · rw [comInertiaInverse, commaInit33_bottomRight, identityDiv3_eq_smul, smul_smul,
      mul_one_div_cancel hm, one_smul]

/-- Witness of C8: `sampleModel` has total mass 4 and an invertible rotational block; the
top-left block of its `comInertiaInverse()` times the rotational block is the identity and
four times its bottom-right block is the identity. -/
theorem comInertiaInverse_blocks_witness :
    sampleModel.totalMass ≠ 0 ∧
      topLeftCorner33 sampleModel.comInertiaInverse * sampleModel.rotationalInertia = 1 ∧
      topRightCorner33 sampleModel.comInertiaInverse = 0 ∧
      sampleModel.totalMass • bottomRightCorner33 sampleModel.comInertiaInverse = 1 := by
  have hm : sampleModel.totalMass ≠ 0 := by
    simp [sampleModel]
  have hJ : IsUnit sampleModel.rotationalInertia := by
    rw [Matrix.isUnit_iff_isUnit_det, rotationalInertia, sampleModel, commaInit33_topLeft,
      Matrix.det_fin_three]
    norm_num
  have h := comInertiaInverse_blocks sampleModel hm
  exact ⟨hm, (h.2.1 hJ).1, h.2.2.1, h.2.2.2.2.2⟩

/-- C4: for a valid mass and inertia (positive total mass, invertible rotational block,
zero off-diagonal blocks, translational block `totalMass * I`), `comInertiaInverse()` is a
two-sided inverse of `comInertia()`. -/
theorem comInertiaInverse_mul_comInertia [LinearOrderedField K] (m : ComModelBase K)
    (hmass : 0 < m.totalMass) (hrot : IsUnit m.rotationalInertia)
    (htr : topRightCorner33 m.comInertia = 0) (hbl : bottomLeftCorner33 m.comInertia = 0)
    (hbr : bottomRightCorner33 m.comInertia = m.totalMass • (1 : matrix3_s_t K)) :
    m.comInertiaInverse * m.comInertia = 1 ∧ m.comInertia * m.comInertiaInverse = 1 := by
  have hdet : IsUnit m.rotationalInertia.det := (Matrix.isUnit_iff_isUnit_det _).1 hrot
  have hm : m.totalMass ≠ 0 := ne_of_gt hmass
  have hI : m.comInertia =
      commaInit33 m.rotationalInertia 0 0 (m.totalMass • (1 : matrix3_s_t K)) := by
    conv_lhs => rw [← commaInit33_corners m.comInertia]
    rw [htr, hbl, hbr]
    rfl
  have hl : identityDiv3 m.totalMass * (m.totalMass • (1 : matrix3_s_t K)) = 1 := by
    rw [identityDiv3_eq_smul, Matrix.smul_mul, Matrix.mul_smul, mul_one, smul_smul,
      one_div_mul_cancel hm, one_smul]
  have hr : (m.totalMass • (1 : matrix3_s_t K)) * identityDiv3 m.totalMass = 1 := by
    rw [identityDiv3_eq_smul, Matrix.smul_mul, Matrix.mul_smul, mul_one, smul_smul,
      mul_one_div_cancel hm, one_smul]
  constructor
  · rw [comInertiaInverse, hI, commaInit33_diag_mul, hl, inverse3_eq_inv,
      Matrix.nonsing_inv_mul _ hdet, commaInit33_one]
  · rw [comInertiaInverse, hI, commaInit33_diag_mul, hr, inverse3_eq_inv,
      Matrix.mul_nonsing_inv _ hdet, commaInit33_one]

/-- Witness of C4: `sampleModel` is a valid mass and inertia, and its
`comInertiaInverse()` is a two-sided inverse of its `comInertia()`. -/
theorem comInertiaInverse_mul_comInertia_witness :
    0 < sampleModel.totalMass ∧
      sampleModel.comInertiaInverse * sampleModel.comInertia = 1 ∧
      sampleModel.comInertia * sampleModel.comInertiaInverse = 1 := by
  have hmass : 0 < sampleModel.totalMass := by
    simp [sampleModel]
  have hJ : IsUnit sampleModel.rotationalInertia := by
    rw [Matrix.isUnit_iff_isUnit_det, rotationalInertia, sampleModel, commaInit33_topLeft,
      Matrix.det_fin_three]
    norm_num
  have hbr : bottomRightCorner33 sampleModel.comInertia =
      sampleModel.totalMass • (1 : matrix3_s_t ℚ) := by
    rw [sampleModel, commaInit33_bottomRight]
    funext i j
    fin_cases i <;> fin_cases j <;> simp [Matrix.vecHead, Matrix.vecTail]
  exact ⟨hmass, comInertiaInverse_mul_comInertia sampleModel hmass hJ
    (commaInit33_topRight _ _ _ _) (commaInit33_bottomLeft _ _ _ _) hbr⟩

end ComModelBase

end switched_model

namespace ComDynamicsBase

variable {K KM CM : Type}

theorem construct_isOk_iff [LinearOrderedField K] [Inhabited KM] (km : KM) (cm : CM) (g : K)
    (c : Bool) :
    (construct km cm g c : Except StdException (ComDynamicsBase K KM CM)).isOk = true ↔
      0 ≤ g := by
  unfold construct
  by_cases h : g < 0
  · simp [h, Except.isOk, Except.toBool, not_le.2 h]
  · simp [h, Except.isOk, Except.toBool, not_lt.1 h]

/-- C5: at gravitational acceleration exactly 0, which is not strictly positive, the
constructor does not throw: it returns the object with gravity vector `(0, 0, -0)`. -/
theorem construct_zero_gravity_succeeds :
    ¬ (0 : ℚ) < 0 ∧
      (construct () () (0 : ℚ) true : Except StdException (ComDynamicsBase ℚ Unit Unit)) =
        Except.ok ⟨(), (), ![0, 0, -0], true⟩ := by
  constructor
  · exact lt_irrefl 0
  · simp [construct]

/-- C6, as stated: it is false that construction with gravity -1 raises an error of the
invalid-argument kind (and construction with 9.81 succeeds); the error raised is not of
that kind. -/
theorem construct_minus_one_kind_counterexample :
    ¬ ((∃ e : StdException,
          (construct () () (-1 : ℚ) true : Except StdException (ComDynamicsBase ℚ Unit Unit)) =
            Except.error e ∧ e.kind = StdExceptionKind.invalid_argument) ∧
        (construct () () (9.81 : ℚ) true :
          Except StdException (ComDynamicsBase ℚ Unit Unit)).isOk = true) := by
  rintro ⟨⟨e, he, hk⟩, -⟩
  have h1 : (construct () () (-1 : ℚ) true :
      Except StdException (ComDynamicsBase ℚ Unit Unit)) =
      Except.error ⟨StdExceptionKind.runtime_error,
        "Gravitational acceleration should be a positive value."⟩ := by
    simp [construct]
  rw [h1] at he
  injection he with he
  rw [← he] at hk
  exact absurd hk (by decide)

/-- C6, amended: construction with gravity -1 throws a `std::runtime_error` with the
message of the source, which is not of the invalid-argument kind, and construction with
9.81 returns the constructed object. -/
theorem construct_minus_one_runtime_error [LinearOrderedField K] [Inhabited KM] (km : KM)
    (cm : CM) (c : Bool) :
    (construct km cm (-1 : K) c : Except StdException (ComDynamicsBase K KM CM)) =
        Except.error ⟨StdExceptionKind.runtime_error,
          "Gravitational acceleration should be a positive value."⟩ ∧
      StdExceptionKind.runtime_error ≠ StdExceptionKind.invalid_argument ∧
      (construct km cm (9.81 : K) c : Except StdException (ComDynamicsBase K KM CM)) =
        Except.ok ⟨default, cm, ![0, 0, -9.81], c⟩ := by
  refine ⟨?_, by decide, ?_⟩
  · simp [construct]
  · have h : ¬ (9.81 : K) < 0 := by norm_num
    simp [construct, h]

end ComDynamicsBase

/-! ## Accelerations -/

namespace switched_model

namespace ComModelBase

variable {K : Type}

/-- C11: on the acceleration with angular part `alpha` and linear part `a`, and a twist
with angular part `w`, `calculateBaseLocalAccelerations` returns
`(alpha, a + alpha x (-r) + w x (w x (-r)))` and `calculateComLocalAccelerations` returns
`(alpha, a + alpha x r + w x (w x r))`, where `r` is `comPositionBaseFrame()` and `x` is
the cross product of 3-vectors; the angular acceleration is `alpha` in both. -/
theorem acceleration_conversion_formula [CommRing K] (m : ComModelBase K)
    (alpha a w v : vector3_s_t K) :
    calculateBaseLocalAccelerations m (fromHeadTail alpha a) (fromHeadTail w v) =
        fromHeadTail alpha (a + crossProduct alpha (-m.comPositionBaseFrame) +
          crossProduct w (crossProduct w (-m.comPositionBaseFrame))) ∧
      calculateComLocalAccelerations m (fromHeadTail alpha a) (fromHeadTail w v) =
        fromHeadTail alpha (a + crossProduct alpha m.comPositionBaseFrame +
          crossProduct w (crossProduct w m.comPositionBaseFrame)) ∧
      getAngularAcceleration
        (calculateBaseLocalAccelerations m (fromHeadTail alpha a) (fromHeadTail w v)) = alpha ∧
      getAngularAcceleration
        (calculateComLocalAccelerations m (fromHeadTail alpha a) (fromHeadTail w v)) = alpha := by
  simp only [calculateBaseLocalAccelerations, calculateComLocalAccelerations,
    getAngularVelocity, getAngularAcceleration, getLinearAcceleration, head3_fromHeadTail,
    tail3_fromHeadTail, cross_eq_crossProduct, and_self]

/-- C15: the two acceleration conversions read only the angular part of their velocity
argument: twists with equal angular parts give equal results, and each acceleration
round trip holds as soon as the two velocity arguments share their angular part. -/
theorem acceleration_ignores_linear_velocity [CommRing K] (m : ComModelBase K)
    (a v1 v2 : base_coordinate_s_t K)
    (h : getAngularVelocity v1 = getAngularVelocity v2) :
    calculateBaseLocalAccelerations m a v1 = calculateBaseLocalAccelerations m a v2 ∧
      calculateComLocalAccelerations m a v1 = calculateComLocalAccelerations m a v2 ∧
      calculateComLocalAccelerations m (calculateBaseLocalAccelerations m a v1) v2 = a ∧
      calculateBaseLocalAccelerations m (calculateComLocalAccelerations m a v1) v2 = a := by
  have back : ∀ t p q : vector3_s_t K, t + -p + -q + p + q = t := by
    intro t p q
    abel
  have forth : ∀ t p q : vector3_s_t K, t + p + q + -p + -q = t := by
    intro t p q
    abel
  refine ⟨?_, ?_, ?_, ?_⟩
  · simp only [calculateBaseLocalAccelerations, h]
  · simp only [calculateComLocalAccelerations, h]
  · simp only [calculateComLocalAccelerations, calculateBaseLocalAccelerations, h,
      getAngularAcceleration, getLinearAcceleration, head3_fromHeadTail, tail3_fromHeadTail,
      cross_neg_right, back, fromHeadTail_head3_tail3]
  · simp only [calculateComLocalAccelerations, calculateBaseLocalAccelerations, h,
      getAngularAcceleration, getLinearAcceleration, head3_fromHeadTail, tail3_fromHeadTail,
      cross_neg_right, forth, fromHeadTail_head3_tail3]

/-- Witness of C15: two rational twists with the angular part `(0, 1, 0)` and different
linear parts give the same converted acceleration on `sampleModel`. -/
theorem acceleration_ignores_linear_velocity_witness :
    getAngularVelocity (![0, 1, 0, 5, 5, 5] : base_coordinate_s_t ℚ) =
        getAngularVelocity (![0, 1, 0, -2, 7, 9] : base_coordinate_s_t ℚ) ∧
      getLinearVelocity (![0, 1, 0, 5, 5, 5] : base_coordinate_s_t ℚ) ≠
        getLinearVelocity (![0, 1, 0, -2, 7, 9] : base_coordinate_s_t ℚ) ∧
      calculateComLocalAccelerations sampleModel ![1, 0, 0, 10, 20, 30] ![0, 1, 0, 5, 5, 5] =
        calculateComLocalAccelerations sampleModel ![1, 0, 0, 10, 20, 30] ![0, 1, 0, -2, 7, 9] ∧
      calculateBaseLocalAccelerations sampleModel
        (calculateComLocalAccelerations sampleModel ![1, 0, 0, 10, 20, 30] ![0, 1, 0, 5, 5, 5])
        ![0, 1, 0, -2, 7, 9] = ![1, 0, 0, 10, 20, 30] := by
  have h : getAngularVelocity (![0, 1, 0, 5, 5, 5] : base_coordinate_s_t ℚ) =
      getAngularVelocity (![0, 1, 0, -2, 7, 9] : base_coordinate_s_t ℚ) := by
    funext i
    fin_cases i <;> rfl
  have hne : getLinearVelocity (![0, 1, 0, 5, 5, 5] : base_coordinate_s_t ℚ) ≠
      getLinearVelocity (![0, 1, 0, -2, 7, 9] : base_coordinate_s_t ℚ) := by
    intro e
    have e0 : (5 : ℚ) = -2 := congrFun e 0
    norm_num at e0
  have t := acceleration_ignores_linear_velocity sampleModel ![1, 0, 0, 10, 20, 30]
    ![0, 1, 0, 5, 5, 5] ![0, 1, 0, -2, 7, 9] h
  exact ⟨h, hne, t.2.1, t.2.2.2⟩

end ComModelBase

end switched_model

/-! ## Flow-map adapter -/

namespace ocs2

namespace OdeFunc

variable {B T X : Type}

/-- C12: an `OdeFunc` constructed from `f` computes `computeFlowMap(t, x, dxdt)` as the
call `f(t, x, dxdt)` itself; when `f` holds a target, the result is exactly the buffer
content the target produces from `t`, `x` and the incoming buffer. -/
theorem computeFlowMap_construct (base : B) (f : StdFunction T X)
    (target : T → X → X → X) (t : T) (x dxdt : X) :
    (construct base f).computeFlowMap t x dxdt = f.invoke t x dxdt ∧
      (construct base (some target)).computeFlowMap t x dxdt = some (target t x dxdt) :=
  ⟨rfl, rfl⟩

theorem base_foldl_setFlowMap (o : OdeFunc B T X) (gs : List (StdFunction T X)) :
    (gs.foldl setFlowMap o).base = o.base := by
  induction gs generalizing o with
  | nil => rfl
  | cons g gs ih => exact ih (o.setFlowMap g)

/-- C13: whatever function an `OdeFunc` was constructed with and whatever `setFlowMap`
calls it has seen, after `setFlowMap(g)` the call `computeFlowMap(t, x, dxdt)` is the
call `g(t, x, dxdt)`; two objects with different histories agree after `setFlowMap(g)`,
and the base-class state is the one left by construction. -/
theorem computeFlowMap_setFlowMap (base base' : B) (f f' : StdFunction T X)
    (gs gs' : List (StdFunction T X)) (g : StdFunction T X)
    (target : T → X → X → X) (t : T) (x dxdt : X) :
    ((gs.foldl setFlowMap (construct base f)).setFlowMap g).computeFlowMap t x dxdt =
        g.invoke t x dxdt ∧
      ((gs.foldl setFlowMap (construct base f)).setFlowMap (some target)).computeFlowMap
        t x dxdt = some (target t x dxdt) ∧
      ((gs.foldl setFlowMap (construct base f)).setFlowMap g).computeFlowMap t x dxdt =
        ((gs'.foldl setFlowMap (construct base' f')).setFlowMap g).computeFlowMap t x dxdt ∧
      ((gs.foldl setFlowMap (construct base f)).setFlowMap g).base = base := by
  refine ⟨rfl, rfl, rfl, ?_⟩
  exact base_foldl_setFlowMap (construct base f) gs

end OdeFunc

end ocs2

/-! ## Task file paths -/

namespace anymal

/-- C17: for the task name `"mpc"`, `getTaskFileFolderCrocLoopshaping` hands back no
value, hence not the package path followed by `"/config/mpc"`, and
`getTaskFilePathCrocLoopshaping` has no folder string to extend. -/
theorem getTaskFileFolderCrocLoopshaping_returns_nothing :
    getTaskFileFolderCrocLoopshaping samplePackagePath "mpc" = none ∧
      getTaskFileFolderCrocLoopshaping samplePackagePath "mpc" ≠
        some (samplePackagePath "ocs2_anymal_croc_loopshaping" ++ "/config/" ++ "mpc") ∧
      getTaskFilePathCrocLoopshaping samplePackagePath "mpc" = none := by
  refine ⟨rfl, ?_, rfl⟩
  intro h
  cases h

end anymal

/-! ## What `comInertiaInverse` reads -/

namespace switched_model

theorem commaInit33_mul {K : Type} [CommRing K] (A B C D A' B' C' D' : matrix3_s_t K) :
    commaInit33 A B C D * commaInit33 A' B' C' D' =
      commaInit33 (A * A' + B * C') (A * B' + B * D') (C * A' + D * C') (C * B' + D * D') := by
  have e : ∀ (X Y Z W : matrix3_s_t K), commaInit33 X Y Z W =
      Matrix.reindex finSumFinEquiv finSumFinEquiv (Matrix.fromBlocks X Y Z W) := by
    intro X Y Z W
    funext i j
    fin_cases i <;> fin_cases j <;> rfl
  rw [e, e, e]
  simp [Matrix.reindex_apply, Matrix.submatrix_mul_equiv, Matrix.fromBlocks_multiply]

namespace ComModelBase

variable {K : Type}

/-- C16: two models with equal `totalMass()` whose `comInertia()` agree on the top-left
3x3 block have the same `comInertiaInverse()`; and `comInertiaInverse()` is a left inverse
of `comInertia()` only if the off-diagonal blocks are zero and the bottom-right block is
`totalMass()` times the identity. -/
theorem comInertiaInverse_reads_topLeft_and_mass [Field K] (m m' : ComModelBase K)
    (hmass : m.totalMass = m'.totalMass)
    (hblock : ∀ i j : Fin 6, i.val < 3 → j.val < 3 → m.comInertia i j = m'.comInertia i j) :
    m.comInertiaInverse = m'.comInertiaInverse ∧
      (m.comInertiaInverse * m.comInertia = 1 →
        topRightCorner33 m.comInertia = 0 ∧ bottomLeftCorner33 m.comInertia = 0 ∧
          bottomRightCorner33 m.comInertia = m.totalMass • (1 : matrix3_s_t K)) := by
  constructor
  · have hJ : m.rotationalInertia = m'.rotationalInertia := by
      funext i j
      exact hblock (Fin.castAdd 3 i) (Fin.castAdd 3 j) i.isLt j.isLt
    rw [comInertiaInverse, comInertiaInverse, hJ, hmass]
  · intro hone
    have hI : m.comInertia = commaInit33 m.rotationalInertia (topRightCorner33 m.comInertia)
        (bottomLeftCorner33 m.comInertia) (bottomRightCorner33 m.comInertia) :=
      (commaInit33_corners m.comInertia).symm
    generalize topRightCorner33 m.comInertia = Bm at hI ⊢
    generalize bottomLeftCorner33 m.comInertia = Cm at hI ⊢
    generalize bottomRightCorner33 m.comInertia = Dm at hI ⊢
    rw [comInertiaInverse, hI, commaInit33_mul, identityDiv3_eq_smul] at hone
    simp only [zero_mul, add_zero, zero_add, Matrix.smul_mul, one_mul] at hone
    have h11 := congrArg topLeftCorner33 hone
    have h12 := congrArg topRightCorner33 hone
    have h21 := congrArg bottomLeftCorner33 hone
    have h22 := congrArg bottomRightCorner33 hone
    rw [← commaInit33_one, commaInit33_topLeft, commaInit33_topLeft] at h11
    rw [← commaInit33_one, commaInit33_topRight, commaInit33_topRight] at h12
    rw [← commaInit33_one, commaInit33_bottomLeft, commaInit33_bottomLeft] at h21
    rw [← commaInit33_one, commaInit33_bottomRight, commaInit33_bottomRight] at h22
    have hm : m.totalMass ≠ 0 := by
      intro h0
      have e := congrFun (congrFun h22 0) 0
      simp [h0] at e
    have hB : Bm = 0 := by
      have h11' := Matrix.mul_eq_one_comm.1 h11
      calc Bm = (m.rotationalInertia * inverse3 m.rotationalInertia) * Bm := by
              rw [h11', one_mul]
        _ = 0 := by rw [Matrix.mul_assoc, h12, mul_zero]
    have hC : Cm = 0 := by
      calc Cm = m.totalMass • ((1 / m.totalMass) • Cm) := by
              rw [smul_smul, mul_one_div_cancel hm, one_smul]
        _ = 0 := by rw [h21, smul_zero]
    have hD : Dm = m.totalMass • (1 : matrix3_s_t K) := by
      calc Dm = m.totalMass • ((1 / m.totalMass) • Dm) := by
              rw [smul_smul, mul_one_div_cancel hm, one_smul]
        _ = m.totalMass • (1 : matrix3_s_t K) := by rw [h22]
    exact ⟨hB, hC, hD⟩

/-- Witness of C16: `skewedModel` and `sampleModel` share the total mass and the top-left
block and differ elsewhere; their `comInertiaInverse()` are equal, and that of
`skewedModel` is not a left inverse of its coupled `comInertia()`. -/
theorem comInertiaInverse_reads_topLeft_and_mass_witness :
    skewedModel.totalMass = sampleModel.totalMass ∧
      (∀ i j : Fin 6, i.val < 3 → j.val < 3 →
        skewedModel.comInertia i j = sampleModel.comInertia i j) ∧
      skewedModel.comInertia ≠ sampleModel.comInertia ∧
      skewedModel.comInertiaInverse = sampleModel.comInertiaInverse ∧
      skewedModel.comInertiaInverse * skewedModel.comInertia ≠ 1 := by
  have hs : topLeftCorner33 skewedModel.comInertia = topLeftCorner33 sampleModel.comInertia := by
    simp only [sampleModel, skewedModel, commaInit33_topLeft]
  have h : ∀ i j : Fin 6, i.val < 3 → j.val < 3 →
      skewedModel.comInertia i j = sampleModel.comInertia i j :=
    fun i j hi hj => congrFun (congrFun hs ⟨i.val, hi⟩) ⟨j.val, hj⟩
  have htr : topRightCorner33 skewedModel.comInertia ≠ 0 := by
    intro e
    have e' := congrFun (congrFun e 0) 0
    simp [skewedModel, commaInit33_topRight] at e'
  have t := comInertiaInverse_reads_topLeft_and_mass skewedModel sampleModel rfl h
  refine ⟨rfl, h, ?_, t.1, fun hone => htr (t.2 hone).1⟩
  intro e
  apply htr
  rw [e]
  exact commaInit33_topRight _ _ _ _

end ComModelBase

end switched_model

/-! ## One algorithm over two scalar types -/

namespace switched_model

section Projection

variable {K₁ K₂ : Type}

theorem map_fromHeadTail (f : K₁ → K₂) (h t : vector3_s_t K₁) :
    f ∘ fromHeadTail h t = fromHeadTail (f ∘ h) (f ∘ t) := by
  funext i
  fin_cases i <;> rfl

theorem map_commaInit33 (f : K₁ → K₂) (A B C D : matrix3_s_t K₁) :
    (commaInit33 A B C D).map f = commaInit33 (A.map f) (B.map f) (C.map f) (D.map f) := by
  funext i j
  fin_cases i <;> fin_cases j <;> rfl

theorem map_cross [CommRing K₁] [CommRing K₂] (f : K₁ →+* K₂) (a b : vector3_s_t K₁) :
    f ∘ cross a b = cross (f ∘ a) (f ∘ b) := by
  funext i
  fin_cases i <;> simp [cross]

theorem map_vec_add [CommRing K₁] [CommRing K₂] (f : K₁ →+* K₂) (a b : vector3_s_t K₁) :
    f ∘ (a + b) = f ∘ a + f ∘ b := by
  funext i
  simp

theorem map_vec_sub [CommRing K₁] [CommRing K₂] (f : K₁ →+* K₂) (a b : vector3_s_t K₁) :
    f ∘ (a - b) = f ∘ a - f ∘ b := by
  funext i
  simp

theorem map_vec_neg [CommRing K₁] [CommRing K₂] (f : K₁ →+* K₂) (a : vector3_s_t K₁) :
    f ∘ (-a) = -(f ∘ a) := by
  funext i
  simp

theorem map_mulVec3 [CommRing K₁] [CommRing K₂] (f : K₁ →+* K₂) (M : matrix3_s_t K₁)
    (v : vector3_s_t K₁) : f ∘ M.mulVec v = (M.map f).mulVec (f ∘ v) := by
  funext i
  exact RingHom.map_mulVec f M v i

theorem map_inverse3 [CommRing K₁] [Div K₁] [CommRing K₂] [Div K₂] (f : K₁ →+* K₂)
    (hdiv : ∀ a b, f (a / b) = f a / f b) (M : matrix3_s_t K₁) :
    (inverse3 M).map f = inverse3 (M.map f) := by
  funext i j
  simp [inverse3, cofactor3, det3, hdiv]

theorem map_identityDiv3 [CommRing K₁] [Div K₁] [CommRing K₂] [Div K₂] (f : K₁ →+* K₂)
    (hdiv : ∀ a b, f (a / b) = f a / f b) (s : K₁) :
    (identityDiv3 s).map f = identityDiv3 (f s) := by
  funext i j
  by_cases h : i = j <;> simp [identityDiv3, hdiv, Matrix.one_apply, h]

/-- The six conversions, `rotationalInertia` and `comInertiaInverse` commute with a ring
homomorphism that preserves division. -/
theorem ringHom_commutes [CommRing K₁] [Div K₁] [CommRing K₂] [Div K₂] (f : K₁ →+* K₂)
    (hdiv : ∀ a b, f (a / b) = f a / f b)
    (R₁ : vector3_s_t K₁ → matrix3_s_t K₁) (R₂ : vector3_s_t K₂ → matrix3_s_t K₂)
    (hR : ∀ theta, (R₁ theta).map f = R₂ (f ∘ theta))
    (m : ComModelBase K₁) (x v : base_coordinate_s_t K₁) :
    f ∘ m.calculateBasePose R₁ x = (m.map f).calculateBasePose R₂ (f ∘ x) ∧
      f ∘ m.calculateComPose R₁ x = (m.map f).calculateComPose R₂ (f ∘ x) ∧
      f ∘ m.calculateBaseLocalVelocities x = (m.map f).calculateBaseLocalVelocities (f ∘ x) ∧
      f ∘ m.calculateComLocalVelocities x = (m.map f).calculateComLocalVelocities (f ∘ x) ∧
      f ∘ m.calculateBaseLocalAccelerations x v =
        (m.map f).calculateBaseLocalAccelerations (f ∘ x) (f ∘ v) ∧
      f ∘ m.calculateComLocalAccelerations x v =
        (m.map f).calculateComLocalAccelerations (f ∘ x) (f ∘ v) ∧
      m.rotationalInertia.map f = (m.map f).rotationalInertia ∧
      m.comInertiaInverse.map f = (m.map f).comInertiaInverse := by
  have hh : ∀ y : base_coordinate_s_t K₁, f ∘ head3 y = head3 (f ∘ y) := fun _ => rfl
  have ht : ∀ y : base_coordinate_s_t K₁, f ∘ tail3 y = tail3 (f ∘ y) := fun _ => rfl
  have hJ : m.rotationalInertia.map f = (m.map f).rotationalInertia := rfl
  refine ⟨?_, ?_, ?_, ?_, ?_, ?_, hJ, ?_⟩
  · simp only [ComModelBase.calculateBasePose, getOrientation, getPositionInOrigin,
      map_fromHeadTail, map_vec_sub, map_mulVec3, hR, hh, ht, ComModelBase.map]
  · simp only [ComModelBase.calculateComPose, getOrientation, getPositionInOrigin,
      map_fromHeadTail, map_vec_add, map_mulVec3, hR, hh, ht, ComModelBase.map]
  · simp only [ComModelBase.calculateBaseLocalVelocities, getAngularVelocity,
      getLinearVelocity, map_fromHeadTail, map_vec_add, map_cross, map_vec_neg, hh, ht,
      ComModelBase.map]
  · simp only [ComModelBase.calculateComLocalVelocities, getAngularVelocity,
      getLinearVelocity, map_fromHeadTail, map_vec_add, map_cross, hh, ht, ComModelBase.map]
  · simp only [ComModelBase.calculateBaseLocalAccelerations, getAngularVelocity,
      getAngularAcceleration, getLinearAcceleration, map_fromHeadTail, map_vec_add, map_cross,
      map_vec_neg, hh, ht, ComModelBase.map]
  · simp only [ComModelBase.calculateComLocalAccelerations, getAngularVelocity,
      getAngularAcceleration, getLinearAcceleration, map_fromHeadTail, map_vec_add, map_cross,
      hh, ht, ComModelBase.map]
  · rw [ComModelBase.comInertiaInverse, ComModelBase.comInertiaInverse, map_commaInit33,
      map_inverse3 f hdiv, map_identityDiv3 f hdiv, hJ]
    simp [ComModelBase.map]

theorem mul_self_eq_self_iff_helper [Field K₂] (c : K₂) (h : c * c = c) : c = 0 ∨ c = 1 := by
  have h' : c * (c - 1) = 0 := by
    rw [mul_sub, h, mul_one, sub_self]
  rcases mul_eq_zero.1 h' with h0 | h1
  · exact Or.inl h0
  · exact Or.inr (sub_eq_zero.1 h1)

/-- When the projection sends every scalar to zero, both instantiations give zero. -/
theorem zero_projection_commutes [CommRing K₁] [Div K₁] [Field K₂]
    (R₁ : vector3_s_t K₁ → matrix3_s_t K₁) (R₂ : vector3_s_t K₂ → matrix3_s_t K₂)
    (m : ComModelBase K₁) (x v : base_coordinate_s_t K₁) (phi : K₁ → K₂)
    (hphi : ∀ a, phi a = 0) :
    phi ∘ m.calculateBasePose R₁ x = (m.map phi).calculateBasePose R₂ (phi ∘ x) ∧
      phi ∘ m.calculateComPose R₁ x = (m.map phi).calculateComPose R₂ (phi ∘ x) ∧
      phi ∘ m.calculateBaseLocalVelocities x =
        (m.map phi).calculateBaseLocalVelocities (phi ∘ x) ∧
      phi ∘ m.calculateComLocalVelocities x =
        (m.map phi).calculateComLocalVelocities (phi ∘ x) ∧
      phi ∘ m.calculateBaseLocalAccelerations x v =
        (m.map phi).calculateBaseLocalAccelerations (phi ∘ x) (phi ∘ v) ∧
      phi ∘ m.calculateComLocalAccelerations x v =
        (m.map phi).calculateComLocalAccelerations (phi ∘ x) (phi ∘ v) ∧
      m.rotationalInertia.map phi = (m.map phi).rotationalInertia ∧
      m.comInertiaInverse.map phi = (m.map phi).comInertiaInverse := by
  have e : phi = fun _ => 0 := funext hphi
  subst e
  have hc6 : ∀ y : base_coordinate_s_t K₁, (fun _ : K₁ => (0 : K₂)) ∘ y = 0 := fun _ => rfl
  have hc3 : ∀ y : vector3_s_t K₁, (fun _ : K₁ => (0 : K₂)) ∘ y = 0 := fun _ => rfl
  have hh : head3 (0 : base_coordinate_s_t K₂) = 0 := rfl
  have ht : tail3 (0 : base_coordinate_s_t K₂) = 0 := rfl
  have hft : fromHeadTail (0 : vector3_s_t K₂) 0 = 0 := by
    funext i
    fin_cases i <;> rfl
  have hx0 : ∀ b : vector3_s_t K₂, cross (0 : vector3_s_t K₂) b = 0 := by
    intro b
    funext i
    fin_cases i <;> simp [cross]
  have h0x : ∀ b : vector3_s_t K₂, cross b (0 : vector3_s_t K₂) = 0 := by
    intro b
    funext i
    fin_cases i <;> simp [cross]
  have hm3 : ∀ M : matrix3_s_t K₁, M.map (fun _ : K₁ => (0 : K₂)) = 0 := fun _ => rfl
  have hm6 : ∀ M : matrix6_s_t K₁, M.map (fun _ : K₁ => (0 : K₂)) = 0 := fun _ => rfl
  have hinv : inverse3 (0 : matrix3_s_t K₂) = 0 := by
    funext i j
    simp [inverse3, cofactor3]
  have hid : identityDiv3 (0 : K₂) = 0 := by
    funext i j
    simp [identityDiv3]
  have hci : commaInit33 (0 : matrix3_s_t K₂) 0 0 0 = 0 := by
    funext i j
    fin_cases i <;> fin_cases j <;> rfl
  have hJ : (m.map fun _ : K₁ => (0 : K₂)).rotationalInertia = 0 := rfl
  refine ⟨?_, ?_, ?_, ?_, ?_, ?_, rfl, ?_⟩
  · simp only [ComModelBase.calculateBasePose, getOrientation, getPositionInOrigin,
      ComModelBase.map, hc6, hc3, hh, ht, Matrix.mulVec_zero, sub_zero, hft]
  · simp only [ComModelBase.calculateComPose, getOrientation, getPositionInOrigin,
      ComModelBase.map, hc6, hc3, hh, ht, Matrix.mulVec_zero, add_zero, hft]
  · simp only [ComModelBase.calculateBaseLocalVelocities, getAngularVelocity,
      getLinearVelocity, ComModelBase.map, hc6, hc3, hh, ht, hx0, add_zero, hft]
  · simp only [ComModelBase.calculateComLocalVelocities, getAngularVelocity,
      getLinearVelocity, ComModelBase.map, hc6, hc3, hh, ht, hx0, add_zero, hft]
  · simp only [ComModelBase.calculateBaseLocalAccelerations, getAngularVelocity,
      getAngularAcceleration, getLinearAcceleration, ComModelBase.map, hc6, hc3, hh, ht, hx0,
      add_zero, hft]
  · simp only [ComModelBase.calculateComLocalAccelerations, getAngularVelocity,
      getAngularAcceleration, getLinearAcceleration, ComModelBase.map, hc6, hc3, hh, ht, hx0,
      add_zero, hft]
  · rw [hm6, ComModelBase.comInertiaInverse, hJ, hinv]
    simp only [ComModelBase.map, hid, hci]

/-- C14: the six frame conversions, `rotationalInertia` and `comInertiaInverse` are one
algorithm over the scalar type.  For every projection `phi` from a differentiable scalar
`K₁` to a plain scalar `K₂` that preserves `+`, `-`, `*`, `/` and commutes with the
orientation-to-rotation-matrix function, `phi` of the result of the `K₁` instantiation is
the result of the `K₂` instantiation on the projected model and arguments. -/
theorem instantiations_agree [CommRing K₁] [Div K₁] [Field K₂] (phi : K₁ → K₂)
    (hadd : ∀ a b, phi (a + b) = phi a + phi b) (hsub : ∀ a b, phi (a - b) = phi a - phi b)
    (hmul : ∀ a b, phi (a * b) = phi a * phi b) (hdiv : ∀ a b, phi (a / b) = phi a / phi b)
    (R₁ : vector3_s_t K₁ → matrix3_s_t K₁) (R₂ : vector3_s_t K₂ → matrix3_s_t K₂)
    (hR : ∀ theta, (R₁ theta).map phi = R₂ (phi ∘ theta))
    (m : ComModelBase K₁) (x v : base_coordinate_s_t K₁) :
    phi ∘ m.calculateBasePose R₁ x = (m.map phi).calculateBasePose R₂ (phi ∘ x) ∧
      phi ∘ m.calculateComPose R₁ x = (m.map phi).calculateComPose R₂ (phi ∘ x) ∧
      phi ∘ m.calculateBaseLocalVelocities x =
        (m.map phi).calculateBaseLocalVelocities (phi ∘ x) ∧
      phi ∘ m.calculateComLocalVelocities x =
        (m.map phi).calculateComLocalVelocities (phi ∘ x) ∧
      phi ∘ m.calculateBaseLocalAccelerations x v =
        (m.map phi).calculateBaseLocalAccelerations (phi ∘ x) (phi ∘ v) ∧
      phi ∘ m.calculateComLocalAccelerations x v =
        (m.map phi).calculateComLocalAccelerations (phi ∘ x) (phi ∘ v) ∧
      m.rotationalInertia.map phi = (m.map phi).rotationalInertia ∧
      m.comInertiaInverse.map phi = (m.map phi).comInertiaInverse := by
  have hzero : phi 0 = 0 := by
    have h := hsub 0 0
    rwa [sub_self, sub_self] at h
  by_cases hone : phi 1 = 1
  · exact ringHom_commutes ⟨⟨⟨phi, hone⟩, hmul⟩, hzero, hadd⟩ hdiv R₁ R₂ hR m x v
  · have h1 : phi 1 = 0 := by
      have h := hmul 1 1
      rw [mul_one] at h
      rcases mul_self_eq_self_iff_helper (phi 1) h.symm with h' | h'
      · exact h'
      · exact absurd h' hone
    have hall : ∀ a, phi a = 0 := by
      intro a
      have h := hmul a 1
      rwa [mul_one, h1, mul_zero] at h
    exact zero_projection_commutes R₁ R₂ m x v phi hall

/-- Witness of C14: the value projection of the dual numbers over the rationals preserves
the four operations and commutes with `sampleRotation`, it forgets the derivative part of
the total mass of `adModel`, and the two instantiations agree on `adModel` and `adPose`. -/
theorem instantiations_agree_witness :
    (∀ a b : ad_scalar_t, adValue (a / b) = adValue a / adValue b) ∧
      (∀ theta : vector3_s_t ad_scalar_t,
        (sampleRotation theta).map adValue = sampleRotation (adValue ∘ theta)) ∧
      adModel.totalMass ≠ 4 ∧ adValue adModel.totalMass = 4 ∧
      adValue ∘ adModel.calculateBasePose sampleRotation adPose =
        (adModel.map adValue).calculateBasePose sampleRotation (adValue ∘ adPose) ∧
      adValue ∘ adModel.calculateComLocalAccelerations adPose adPose =
        (adModel.map adValue).calculateComLocalAccelerations (adValue ∘ adPose)
          (adValue ∘ adPose) ∧
      adModel.comInertiaInverse.map adValue = (adModel.map adValue).comInertiaInverse := by
  have hadd : ∀ a b : ad_scalar_t, adValue (a + b) = adValue a + adValue b :=
    fun a b => TrivSqZeroExt.fst_add a b
  have hsub : ∀ a b : ad_scalar_t, adValue (a - b) = adValue a - adValue b :=
    fun a b => TrivSqZeroExt.fst_sub a b
  have hmul : ∀ a b : ad_scalar_t, adValue (a * b) = adValue a * adValue b :=
    fun a b => TrivSqZeroExt.fst_mul a b
  have hdiv : ∀ a b : ad_scalar_t, adValue (a / b) = adValue a / adValue b := by
    intro a b
    show TrivSqZeroExt.fst (a * b⁻¹) = TrivSqZeroExt.fst a / TrivSqZeroExt.fst b
    rw [TrivSqZeroExt.fst_mul, TrivSqZeroExt.fst_inv, div_eq_mul_inv]
  have hR : ∀ theta : vector3_s_t ad_scalar_t,
      (sampleRotation theta).map adValue = sampleRotation (adValue ∘ theta) := by
    intro theta
    funext i j
    fin_cases i <;> fin_cases j <;> simp [sampleRotation, adValue]
  have hne : adModel.totalMass ≠ 4 := by
    intro h
    have h' := congrArg TrivSqZeroExt.snd h
    simp [adModel] at h'
  have h4 : TrivSqZeroExt.fst (4 : ad_scalar_t) = 4 := by
    have h : (4 : ad_scalar_t) = ((4 : ℕ) : ad_scalar_t) := by norm_cast
    rw [h, TrivSqZeroExt.fst_natCast]
    norm_cast
  have hval : adValue adModel.totalMass = 4 := by
    show TrivSqZeroExt.fst (4 + DualNumber.eps) = 4
    rw [TrivSqZeroExt.fst_add, DualNumber.fst_eps, add_zero, h4]
  have t := instantiations_agree adValue hadd hsub hmul hdiv sampleRotation sampleRotation hR
    adModel adPose adPose
  exact ⟨hdiv, hR, hne, hval, t.1, t.2.2.2.2.2.1, t.2.2.2.2.2.2.2⟩

end Projection

end switched_model
